import Mathlib

/-!
Verification of the JSON validation core in
`packages/frontend/editor-ui/src/utils/json-parser.ts`.

The TypeScript source is shallowly embedded: JavaScript strings are lists of
characters, plain data objects are Lean structures and inductive types, and the
two external primitives the orchestrator composes (the tolerant parser from
`jsonc-parser` and the Zod v3 schema engine) are modelled at their interface:
the parse outcome is an explicit input of `validateJson`, and the Zod engine is
a Lean function implementing the documented Zod v3 semantics of the schema
fragment used here (object / array / primitive / union schemas).
-/

/-- JavaScript strings are modelled as lists of characters. -/
abbrev Str := List Char

/-- Apostrophe character, used by Zod message templates. -/
def apos : Char := Char.ofNat 39

/-- Em-dash used in the unexpected-field suggestion text of the source. -/
def emdash : Char := Char.ofNat 0x2014

/-- Lowercasing of a JS string, modelling `String.prototype.toLowerCase` on
the ASCII texts that the classifier inspects. -/
def strToLower (s : Str) : Str := s.map Char.toLower

/-- Model of `Array.prototype.join` with a separator. -/
def joinSep (sep : Str) : List Str → Str
  | [] => []
  | [x] => x
  | x :: xs => x ++ sep ++ joinSep sep xs

/-- Model of `text.slice(0, offset).split(/\r?\n/)` from `positionFromOffset`:
splits at each line feed, consuming one preceding carriage return when present.
A lone carriage return is not a separator. -/
def splitLines : Str → List Str
  | [] => [[]]
  | '\r' :: '\n' :: rest => [] :: splitLines rest
  | '\n' :: rest => [] :: splitLines rest
  | c :: rest =>
    match splitLines rest with
    | l :: ls => (c :: l) :: ls
    | [] => [[c]]

/-- Number of `\r?\n` separators occurring in a string (specification-side
counter used to state the claim about `positionFromOffset`). -/
def sepCount : Str → Nat
  | [] => 0
  | '\r' :: '\n' :: rest => sepCount rest + 1
  | '\n' :: rest => sepCount rest + 1
  | _ :: rest => sepCount rest

/-- Whether the string contains a `\r?\n` separator. -/
def hasSep : Str → Bool
  | [] => false
  | '\r' :: '\n' :: _ => true
  | '\n' :: _ => true
  | _ :: rest => hasSep rest

/-- Index of the first character after the last `\r?\n` separator of the
string, or `0` when the string has no separator (specification-side). -/
def lastSepEnd : Str → Nat
  | [] => 0
  | '\r' :: '\n' :: rest => if hasSep rest then 2 + lastSepEnd rest else 2
  | '\n' :: rest => if hasSep rest then 1 + lastSepEnd rest else 1
  | _ :: rest => if hasSep rest then 1 + lastSepEnd rest else 0

/-- Model of `positionFromOffset(text, offset)` from the source: guards
invalid offsets to `(0, 0)`, otherwise splits the prefix ending at `offset`
on `/\r?\n/` and returns (number of segments, length of last segment + 1).
The offset is an integer so that the negative-offset guard is expressible. -/
def positionFromOffset (text : Str) (offset : Int) : Nat × Nat :=
  if offset < 0 ∨ offset > (text.length : Int) then (0, 0)
  else
    let lines := splitLines (text.take offset.toNat)
    (lines.length, (lines.getLastD []).length + 1)

/-- Dematerialized JSON values: the plain nested data produced by
`getNodeValue` and consumed by the schema engine. Numbers are modelled as
integers; no claim depends on the fine structure of numerics. -/
inductive JValue where
  | str (s : Str)
  | num (n : Int)
  | bool (b : Bool)
  | null
  | arr (xs : List JValue)
  | obj (fields : List (Str × JValue))

/-- Boolean substring test, modelling `String.prototype.includes`. -/
def strIncludes (hay needle : Str) : Bool :=
  if needle.isPrefixOf hay then true
  else
    match hay with
    | [] => false
    | _ :: rest => strIncludes rest needle

/-- Model of the `ValidationIssue` interface of the source. -/
structure ValidationIssue where
  message : Str
  suggestion : Option Str
  jsonPointer : Str
  line : Nat
  column : Nat
deriving DecidableEq

/-- Model of the `ValidationResult<T>` interface of the source; `data` is the
optional field, present exactly when the source sets it. -/
structure ValidationResult where
  valid : Bool
  data : Option JValue
  errors : List ValidationIssue

/-- Case-insensitive substring test, modelling
`message.toLowerCase().includes(needle)` for the lowercase needles used by
`groupIssuesByCategory`. -/
def msgHas (message : Str) (needle : Str) : Bool :=
  strIncludes (strToLower message) needle

/-- Grouped issues, modelling the record built by `groupIssuesByCategory`. -/
structure GroupedIssues where
  missing : List ValidationIssue
  invalid : List ValidationIssue
  unexpected : List ValidationIssue
  other : List ValidationIssue
deriving DecidableEq

/-- Model of `groupIssuesByCategory`: a single pass over the issues pushing
each one into the first matching bucket, in input order. -/
def groupIssuesByCategory (issues : List ValidationIssue) : GroupedIssues :=
  issues.foldl
    (fun g issue =>
      if msgHas issue.message ("missing".toList) ∨ msgHas issue.message ("required".toList) then
        { g with missing := g.missing ++ [issue] }
      else if msgHas issue.message ("unexpected".toList) then
        { g with unexpected := g.unexpected ++ [issue] }
      else if msgHas issue.message ("invalid".toList) then
        { g with invalid := g.invalid ++ [issue] }
      else
        { g with other := g.other ++ [issue] })
    ⟨[], [], [], []⟩

/-- Lines contributed to `parts` by one category block of
`createErrorSummary`: nothing for an empty group, otherwise a header line
followed by a bullet line per issue and an indented suggestion line when a
suggestion is present. -/
def categoryLines (header : Str) (issues : List ValidationIssue) : List Str :=
  if issues = [] then []
  else
    ('\n' :: header) ::
      issues.flatMap
        (fun issue =>
          ("   - ".toList ++ issue.message) ::
            match issue.suggestion with
            | some s => [("      💡 ".toList ++ s)]
            | none => [])

/-- Model of `createErrorSummary`: group, then emit the four category blocks
in the fixed source order and join all lines with a newline. -/
def createErrorSummary (issues : List ValidationIssue) : Str :=
  let grouped := groupIssuesByCategory issues
  let parts :=
    categoryLines ("Missing Required Fields:".toList) grouped.missing ++
    categoryLines ("Invalid Values:".toList) grouped.invalid ++
    categoryLines ("Unexpected Fields:".toList) grouped.unexpected ++
    categoryLines ("Other Issues:".toList) grouped.other
  joinSep ("\n".toList) parts

/-- Specification-side category of an issue, written from the claim: the
first matching case-insensitive substring among missing/required,
unexpected, invalid decides the category. -/
inductive IssueCategory where
  | missing | unexpected | invalid | other
deriving DecidableEq

/-- Specification-side classifier from the claim text. -/
def classifyIssue (issue : ValidationIssue) : IssueCategory :=
  if msgHas issue.message ("missing".toList) ∨ msgHas issue.message ("required".toList) then
    .missing
  else if msgHas issue.message ("unexpected".toList) then .unexpected
  else if msgHas issue.message ("invalid".toList) then .invalid
  else .other

/-- Specification-side summary renderer written from the claim: filter each
category out of the input (preserving input order), render the non-empty
categories in a fixed order, omit empty ones, join with newlines. -/
def summarySpec (issues : List ValidationIssue) : Str :=
  let cat := fun c => issues.filter (fun i => classifyIssue i = c)
  joinSep ("\n".toList)
    (categoryLines ("Missing Required Fields:".toList) (cat .missing) ++
     categoryLines ("Invalid Values:".toList) (cat .invalid) ++
     categoryLines ("Unexpected Fields:".toList) (cat .unexpected) ++
     categoryLines ("Other Issues:".toList) (cat .other))

/-- First escaping pass of the source: `replace(/~/g, "~0")`. -/
def escTilde (s : Str) : Str :=
  s.flatMap (fun c => if c = '~' then ['~', '0'] else [c])

/-- Second escaping pass of the source: `replace(/\//g, "~1")`. -/
def escSlash (s : Str) : Str :=
  s.flatMap (fun c => if c = '/' then ['~', '1'] else [c])

/-- RFC-6901 segment escaping exactly as both `pathToPointer` and
`buildPointerMap` perform it: tildes first, then slashes. -/
def esc (s : Str) : Str := escSlash (escTilde s)

/-- Inverse of `esc`, used to prove that escaped segments are unambiguous. -/
def unesc : Str → Str
  | '~' :: '0' :: rest => '~' :: unesc rest
  | '~' :: '1' :: rest => '/' :: unesc rest
  | c :: rest => c :: unesc rest
  | [] => []

/-- Path segments of a Zod issue path: strings for object keys, numbers for
array indices. -/
inductive Seg where
  | key (s : Str)
  | idx (n : Nat)
deriving DecidableEq

/-- Model of `String(p)` applied to a path segment. -/
def segToStr : Seg → Str
  | .key s => s
  | .idx n => (Nat.repr n).toList

/-- Model of `pathToPointer`: empty path maps to the empty pointer, otherwise
a leading slash followed by the escaped stringified segments joined by
slashes. -/
def pathToPointer (path : List Seg) : Str :=
  match path with
  | [] => []
  | _ => '/' :: joinSep ("/".toList) (path.map (fun p => esc (segToStr p)))

/-- Node kinds of the `jsonc-parser` syntax tree. An object node's children
are `property` nodes; each property node's children are its string key node
and its value node. -/
inductive JNodeType where
  | object | array | property | string | number | boolean | nullType
deriving DecidableEq

/-- Model of the `jsonc-parser` `Node`: kind, offset and length into the
source text, children, and the decoded value for literal nodes. -/
inductive JNode where
  | mk (type : JNodeType) (offset : Nat) (length : Nat)
      (children : List JNode) (value : Option JValue)

/-- Node kind accessor. -/
def JNode.type : JNode → JNodeType
  | .mk t _ _ _ _ => t

/-- Node offset accessor. -/
def JNode.offset : JNode → Nat
  | .mk _ o _ _ _ => o

/-- Node length accessor. -/
def JNode.length : JNode → Nat
  | .mk _ _ l _ _ => l

/-- Node children accessor. -/
def JNode.children : JNode → List JNode
  | .mk _ _ _ cs _ => cs

/-- Node value accessor. -/
def JNode.value : JNode → Option JValue
  | .mk _ _ _ _ v => v

/-- Pointer map in source order of the writes; `Object.assign` semantics are
captured by a right-biased lookup (`ptrLookup`). -/
abbrev PtrMap := List (Str × Nat)

/-- Lookup modelling a JS object property read on the pointer map: the last
write to a pointer wins. -/
def ptrLookup (m : PtrMap) (p : Str) : Option Nat :=
  (m.reverse.find? (fun e => decide (e.1 = p))).map (fun e => e.2)

/-- Decoded key of an object pair in `buildPointerMap`: the text slice
between `keyNode.offset + 1` and `keyNode.offset + keyNode.length - 1`,
computed only when the source's bounds guard passes. -/
def sliceKey (text : Str) (keyNode : JNode) : Option Str :=
  let keyStart : Int := (keyNode.offset : Int) + 1
  let keyEnd : Int := (keyNode.offset : Int) + (keyNode.length : Int) - 1
  if 0 ≤ keyStart ∧ keyEnd ≤ (text.length : Int) ∧ keyStart ≤ keyEnd then
    some ((text.drop keyStart.toNat).take (keyEnd - keyStart).toNat)
  else
    none

mutual

/-- Model of `buildPointerMap(node, text, pointer)`: records the node's
offset under the current pointer, then walks object children two at a time
treating them as key/value pairs, and array children with index pointers.
The source's `typeof`-guards always pass in the model since offsets and
children are total fields. -/
def buildPointerMap (node : JNode) (text : Str) (pointer : Str) : PtrMap :=
  match node with
  | .mk t o _ cs _ =>
    (pointer, o) ::
      (if t = .object then buildPairs cs text pointer else []) ++
        (if t = .array then buildElems cs text pointer 0 else [])
termination_by (sizeOf node, 0)

/-- The `for (let i = 0; i < children.length; i += 2)` loop of the source:
children are consumed two at a time as (keyNode, valueNode); a trailing
child without a partner is skipped by the `!valueNode` guard, and a pair
whose key slice fails the bounds guard is skipped. -/
def buildPairs (children : List JNode) (text : Str) (pointer : Str) : PtrMap :=
  match children with
  | keyNode :: valueNode :: rest =>
    (match sliceKey text keyNode with
     | some key => buildPointerMap valueNode text (pointer ++ '/' :: esc key)
     | none => []) ++ buildPairs rest text pointer
  | _ => []
termination_by (sizeOf children, 1)

/-- The array branch of `buildPointerMap`: recurse into each child with the
pointer extended by the zero-based index. -/
def buildElems (children : List JNode) (text : Str) (pointer : Str) (index : Nat) : PtrMap :=
  match children with
  | [] => []
  | child :: rest =>
    buildPointerMap child text (pointer ++ '/' :: (Nat.repr index).toList) ++
      buildElems rest text pointer (index + 1)
termination_by (sizeOf children, 1)

end

/-- JS object assignment on an association list: replace the value of an
existing key in place, otherwise append the new key. -/
def objAssign (fields : List (Str × JValue)) (k : Str) (v : JValue) : List (Str × JValue) :=
  if fields.any (fun e => decide (e.1 = k)) then
    fields.map (fun e => if e.1 = k then (k, v) else e)
  else
    fields ++ [(k, v)]

mutual

/-- Model of `getNodeValue` from `jsonc-parser`: literal nodes yield their
decoded value, arrays map the children, objects read each property node's
key string node and value node. Property key nodes produced by the parser
are string nodes; other shapes fall back like the JS coercions would. -/
def getNodeValue (node : JNode) : JValue :=
  match node with
  | .mk .array _ _ cs _ => .arr (getNodeValues cs)
  | .mk .object _ _ cs _ => .obj (getProps cs [])
  | .mk _ _ _ _ v => v.getD .null
termination_by (sizeOf node, 0)

/-- Value list of an array node's children. -/
def getNodeValues (nodes : List JNode) : List JValue :=
  match nodes with
  | [] => []
  | n :: rest => getNodeValue n :: getNodeValues rest
termination_by (sizeOf nodes, 1)

/-- The object loop of `getNodeValue`: for each property node with at least
two children, assign `obj[keyNode.value] = getNodeValue(valueNode)`;
JS property assignment overwrites an existing key in place. Property key
nodes produced by the parser are string nodes carrying the decoded key. -/
def getProps (nodes : List JNode) (acc : List (Str × JValue)) : List (Str × JValue) :=
  match nodes with
  | [] => acc
  | prop :: rest =>
    match prop with
    | .mk _ _ _ (keyNode :: valueNode :: _) _ =>
      let key :=
        match keyNode.value with
        | some (.str s) => s
        | _ => "undefined".toList
      getProps rest (objAssign acc key (getNodeValue valueNode))
    | _ => getProps rest acc
termination_by (sizeOf nodes, 1)

end


/-- Unknown-keys policy of a Zod object schema. -/
inductive UK where
  | strip | strict | passthrough
deriving DecidableEq

/-- Primitive Zod schema kinds used by the embedding. -/
inductive ZPrim where
  | zstr | znum | zbool | znull
deriving DecidableEq

/-- Zod schema fragment the source manipulates: object schemas with a shape
and an unknown-keys policy, array schemas, primitive schemas, and unions.
A union carries at least two alternatives, mirroring the `z.union` signature
`[T, T, ...T[]]` of the typed Zod API. -/
inductive ZSchema where
  | prim (k : ZPrim)
  | obj (shape : List (Str × ZSchema)) (uk : UK)
  | arr (elem : ZSchema)
  | union (a : ZSchema) (b : ZSchema) (rest : List ZSchema)

/-- Host TypeError message raised by `schema.element(inner)` in `deepStrict`:
`ZodArray.element` is a property getter in Zod v3, so its result (a schema
object, not a function) is being called. -/
def elementTypeErr : Str := "schema.element is not a function".toList

mutual

/-- Model of `deepStrict`: object schemas are rebuilt with the `strict`
policy and strictified children (the JS loop assigns the strictified child
back for each shape key in order, propagating any exception); the array
branch first strictifies the element type, then throws a TypeError because
`schema.element` is not callable in Zod v3; every other schema is returned
unchanged. -/
def deepStrict (schema : ZSchema) : Except Str ZSchema :=
  match schema with
  | .obj shape _ =>
    (match deepStrictShape shape with
     | .ok shape2 => .ok (.obj shape2 .strict)
     | .error m => .error m)
  | .arr elem =>
    (match deepStrict elem with
     | .ok _ => .error elementTypeErr
     | .error m => .error m)
  | s => .ok s
termination_by (sizeOf schema, 0)

/-- The shape loop of `deepStrict`: strictify each child in key order,
propagating the first exception. -/
def deepStrictShape (shape : List (Str × ZSchema)) : Except Str (List (Str × ZSchema)) :=
  match shape with
  | [] => .ok []
  | (key, cs) :: rest =>
    (match deepStrict cs with
     | .error m => .error m
     | .ok cs2 =>
       match deepStrictShape rest with
       | .error m => .error m
       | .ok rest2 => .ok ((key, cs2) :: rest2))
termination_by (sizeOf shape, 1)

end

/-- Zod issues relevant to the source: type mismatches, unrecognized keys of
strict objects, and union failures carrying the per-alternative errors. -/
inductive ZIssue where
  | invalidType (path : List Seg) (expected received : Str)
  | unrecognizedKeys (path : List Seg) (keys : List Str)
  | invalidUnion (path : List Seg) (unionErrors : List (List ZIssue))

/-- Path accessor of a Zod issue. -/
def ZIssue.path : ZIssue → List Seg
  | .invalidType p _ _ => p
  | .unrecognizedKeys p _ => p
  | .invalidUnion p _ => p

/-- Model of Zod's `getParsedType` composed over the optional value
(`none` models JS `undefined`). -/
def parsedTypeO : Option JValue → Str
  | none => "undefined".toList
  | some (.str _) => "string".toList
  | some (.num _) => "number".toList
  | some (.bool _) => "boolean".toList
  | some .null => "null".toList
  | some (.arr _) => "array".toList
  | some (.obj _) => "object".toList

/-- Expected-type name of a primitive Zod schema. -/
def primName : ZPrim → Str
  | .zstr => "string".toList
  | .znum => "number".toList
  | .zbool => "boolean".toList
  | .znull => "null".toList

/-- Whether a primitive Zod schema accepts the value. -/
def primAccepts : ZPrim → Option JValue → Bool
  | .zstr, some (.str _) => true
  | .znum, some (.num _) => true
  | .zbool, some (.bool _) => true
  | .znull, some .null => true
  | _, _ => false

/-- Object-field view of an optional value. -/
def asObjFields : Option JValue → Option (List (Str × JValue))
  | some (.obj fields) => some fields
  | _ => none

/-- Array-element view of an optional value. -/
def asArrElems : Option JValue → Option (List JValue)
  | some (.arr xs) => some xs
  | _ => none

/-- JS property read of an object field (`data[key]`); `none` models
`undefined` for an absent key. -/
def jsLookup (fields : List (Str × JValue)) (k : Str) : Option JValue :=
  match fields with
  | [] => none
  | (k2, v) :: rest => if k2 = k then some v else jsLookup rest k

mutual

/-- Model of the synchronous Zod v3 parse of the embedded schema fragment,
returning the ordered issue list (empty exactly on success). Objects first
check the parsed type, then parse each shape key in shape order against
`data[key]` with the path extended by the key, and afterwards add one
`unrecognized_keys` issue listing the extra keys in data order when the
policy is strict; arrays parse elements with index paths; unions try every
alternative against the same path and produce a single `invalid_union`
issue carrying each failed alternative's issues. -/
def zodParse (s : ZSchema) (v : Option JValue) (path : List Seg) : List ZIssue :=
  match s with
  | .prim k =>
    if primAccepts k v then [] else [.invalidType path (primName k) (parsedTypeO v)]
  | .obj shape uk =>
    (match asObjFields v with
     | some fields =>
       let shapeKeys := shape.map (fun e => e.1)
       let extraKeys := (fields.map (fun e => e.1)).filter (fun k => decide (k ∉ shapeKeys))
       zodParseShape shape fields path ++
         (if uk = .strict ∧ extraKeys ≠ [] then [.unrecognizedKeys path extraKeys] else [])
     | none => [.invalidType path ("object".toList) (parsedTypeO v)])
  | .arr elem =>
    (match asArrElems v with
     | some xs => zodParseArr elem xs 0 path
     | none => [.invalidType path ("array".toList) (parsedTypeO v)])
  | .union a b rest =>
    let results := zodParse a v path :: zodParse b v path :: zodParseAlts rest v path
    if results.any (fun r => r.isEmpty) then [] else [.invalidUnion path results]
termination_by (sizeOf s, 0)

/-- The shape loop of the Zod object parse. -/
def zodParseShape (shape : List (Str × ZSchema)) (fields : List (Str × JValue))
    (path : List Seg) : List ZIssue :=
  match shape with
  | [] => []
  | (key, cs) :: rest =>
    zodParse cs (jsLookup fields key) (path ++ [Seg.key key]) ++ zodParseShape rest fields path
termination_by (sizeOf shape, 1)

/-- The element loop of the Zod array parse. -/
def zodParseArr (elem : ZSchema) (xs : List JValue) (i : Nat) (path : List Seg) : List ZIssue :=
  match xs with
  | [] => []
  | x :: rest => zodParse elem (some x) (path ++ [Seg.idx i]) ++ zodParseArr elem rest (i + 1) path
termination_by (sizeOf elem, sizeOf xs)

/-- The remaining-alternatives loop of the Zod union parse. -/
def zodParseAlts (alts : List ZSchema) (v : Option JValue) (path : List Seg) :
    List (List ZIssue) :=
  match alts with
  | [] => []
  | a :: rest => zodParse a v path :: zodParseAlts rest v path
termination_by (sizeOf alts, 1)

end

/-- Zod message template piece: a key wrapped in single quotes. -/
def quoteKey (k : Str) : Str := apos :: (k ++ [apos])

/-- Default Zod v3 error messages for the issues of the embedding:
`invalid_type` with received `undefined` renders as "Required", other type
mismatches as "Expected …, received …"; `unrecognized_keys` lists the
quoted keys; `invalid_union` renders as "Invalid input". -/
def zodMessage : ZIssue → Str
  | .invalidType _ expected received =>
    if received = "undefined".toList then "Required".toList
    else "Expected ".toList ++ expected ++ ", received ".toList ++ received
  | .unrecognizedKeys _ keys =>
    "Unrecognized key(s) in object: ".toList ++ joinSep (", ".toList) (keys.map quoteKey)
  | .invalidUnion _ _ => "Invalid input".toList

/-- Suggestion text for unrecognized keys in the source (em-dash included). -/
def removeSuggestion : Str :=
  "Remove this field ".toList ++ emdash :: " it is not allowed by the schema".toList

/-- Stringified last path segment used by the missing-field suggestion;
`String(undefined)` for an empty path. -/
def lastSegStr (path : List Seg) : Str :=
  match path.getLast? with
  | some seg => segToStr seg
  | none => "undefined".toList

/-- Model of the `handleIssue` closure of `validateJson`: derive the
pointer, look it up in the pointer map for a position (falling back to
`(0,0)`), attach the suggestion by the source's three rules, and prefix the
message. -/
def handleIssue (jsonText : Str) (pointerMap : PtrMap) (issue : ZIssue) : ValidationIssue :=
  let pointer := pathToPointer issue.path
  let loc :=
    match ptrLookup pointerMap pointer with
    | some off => positionFromOffset jsonText (off : Int)
    | none => (0, 0)
  let msg := zodMessage issue
  let suggestion : Option Str :=
    if msgHas msg ("required".toList) then
      some ("Add missing field: \"".toList ++ lastSegStr issue.path ++ "\"".toList)
    else
      match issue with
      | .unrecognizedKeys _ _ => some removeSuggestion
      | .invalidType _ expected received =>
        some ("Expected type ".toList ++ quoteKey expected ++ ", got ".toList ++
          quoteKey received)
      | _ => none
  { message := "Validation error: ".toList ++ msg
    suggestion := suggestion
    jsonPointer := pointer
    line := loc.1
    column := loc.2 }

/-- The union-flattening pass of `validateJson`: an `invalid_union` issue is
replaced by the issues of each rejected alternative (one level only); every
other issue passes through unchanged. -/
def flattenIssues (issues : List ZIssue) : List ZIssue :=
  issues.flatMap
    (fun i =>
      match i with
      | .invalidUnion _ ue => ue.flatMap (fun l => l)
      | _ => [i])

/-- Model of the `jsonc-parser` `ParseError`: an offset and the
human-readable error-code name (the numeric code composed with
`printParseErrorCode` is modelled by carrying the printed name). -/
structure ParseError where
  offset : Int
  error : Str
deriving DecidableEq

/-- Identity print of the modelled error-code name, standing for
`printParseErrorCode`. -/
def printParseErrorCode (code : Str) : Str := code

/-- Outcome of the guarded `parseTree` call of `validateJson`: either the
caught exception's message, or the possibly-absent tree together with the
collected syntax errors. -/
abbrev ParseOutcome := Except Str (Option JNode × List ParseError)

/-- Model of `validateJson(jsonText, schema)`; the outcome of the external
tolerant parse is passed explicitly. The branches mirror the source in
order: caught parse exception; syntax errors or absent tree; schema
strictification failure; Zod success; Zod failure with union flattening.
The model's `getNodeValue` and `buildPointerMap` are total, so the source's
defensive catch around them has no error path here, and on success `data`
holds the parsed value. -/
def validateJson (parseOutcome : ParseOutcome) (jsonText : Str) (schema : ZSchema) :
    ValidationResult :=
  match parseOutcome with
  | .error m =>
    ⟨false, none, [⟨"Parse error: ".toList ++ m, none, [], 0, 0⟩]⟩
  | .ok (treeOpt, parseErrors) =>
    match treeOpt, parseErrors with
    | some tree, [] =>
      let data := getNodeValue tree
      let pointerMap := buildPointerMap tree jsonText []
      (match deepStrict schema with
       | .error m =>
         ⟨false, none, [⟨"Schema error: ".toList ++ m, none, [], 0, 0⟩]⟩
       | .ok strictSchema =>
         match zodParse strictSchema (some data) [] with
         | [] => ⟨true, some data, []⟩
         | issues =>
           ⟨false, none, (flattenIssues issues).map (handleIssue jsonText pointerMap)⟩)
    | _, _ =>
      ⟨false, none,
        parseErrors.map
          (fun e =>
            let lc := positionFromOffset jsonText e.offset
            ⟨"Syntax error: ".toList ++ printParseErrorCode e.error, none, [], lc.1, lc.2⟩)⟩

/-- Outcome of the guarded `fs.readFileSync` call: the raw contents, or the
caught error's message. Modelled from the spec: file-system access is an
external collaborator specified only at its interface boundary. -/
abbrev ReadOutcome := Except Str Str

/-- Model of `validateJsonFile`: on a successful read, validate the raw
contents; on any read failure, a single File-error issue with empty pointer
and position `(0,0)`. The tolerant parse of the contents is supplied as a
function of the text read. -/
def validateJsonFile (parseOf : Str → ParseOutcome) (readOutcome : ReadOutcome)
    (schema : ZSchema) : ValidationResult :=
  match readOutcome with
  | .ok raw => validateJson (parseOf raw) raw schema
  | .error m => ⟨false, none, [⟨"File error: ".toList ++ m, none, [], 0, 0⟩]⟩

/-- Heap-modelled Zod schema for the aliasing analysis of `deepStrict`: a
ZodObject value holds its unknown-keys policy and the reference `sid` of
the mutable shape record its `_def.shape()` closure returns. In Zod v3,
`schema.strict()` spreads `_def`, so the derived object shares the same
shape record reference; only object shapes are mutable, so they are the
only heap-allocated part of the model. -/
inductive HSchema where
  | obj (sid : Nat) (uk : UK)
  | arr (elem : HSchema)
  | leaf
deriving DecidableEq

/-- Heap of shape records addressed by shape id. -/
abbrev Store := List (List (Str × HSchema))

/-- Read a shape record from the store. -/
def getShape (st : Store) (sid : Nat) : List (Str × HSchema) := st.getD sid []

/-- JS property read on a shape record. -/
def hLookup (rec : List (Str × HSchema)) (key : Str) : Option HSchema :=
  match rec with
  | [] => none
  | (k2, v) :: rest => if k2 = key then some v else hLookup rest key

/-- JS property write on a shape record: the existing entry is updated in
place. -/
def setEntry (rec : List (Str × HSchema)) (key : Str) (v : HSchema) :
    List (Str × HSchema) :=
  rec.map (fun e => if e.1 = key then (key, v) else e)

mutual

/-- Heap-model of `deepStrict`, fuelled (`none` = out of fuel; the JS
recursion has no cycle protection). The object branch derives
`strictObj = schema.strict()` — a new object value with policy `strict`
sharing the caller's shape record — then iterates a snapshot of the
record's keys, assigning `shape[key] = deepStrict(shape[key])` into the
shared record; the array branch throws the `element` TypeError. -/
def deepStrictH (fuel : Nat) (st : Store) (s : HSchema) :
    Option (Except Str (Store × HSchema)) :=
  match fuel with
  | 0 => none
  | fuel2 + 1 =>
    match s with
    | .obj sid _ =>
      (match deepStrictKeys fuel2 st sid ((getShape st sid).map (fun e => e.1)) with
       | none => none
       | some (.error m) => some (.error m)
       | some (.ok st2) => some (.ok (st2, .obj sid .strict)))
    | .arr elem =>
      (match deepStrictH fuel2 st elem with
       | none => none
       | some (.error m) => some (.error m)
       | some (.ok _) => some (.error elementTypeErr))
    | .leaf => some (.ok (st, .leaf))
termination_by (fuel, 0)

/-- The mutating key loop of the heap-model `deepStrict`. -/
def deepStrictKeys (fuel : Nat) (st : Store) (sid : Nat) (keys : List Str) :
    Option (Except Str Store) :=
  match keys with
  | [] => some (.ok st)
  | key :: rest =>
    match hLookup (getShape st sid) key with
    | none => deepStrictKeys fuel st sid rest
    | some child =>
      match deepStrictH fuel st child with
      | none => none
      | some (.error m) => some (.error m)
      | some (.ok (st2, child2)) =>
        deepStrictKeys fuel (st2.set sid (setEntry (getShape st2 sid) key child2)) sid rest
termination_by (fuel, keys.length + 1)

end

/-- Association-list view of the pairing loop of `buildPairs`: the decoded
key (when the bounds guard passes) together with the node used as the value
node of the pair. -/
def decodedPairs (children : List JNode) (text : Str) : List (Str × JNode) :=
  match children with
  | keyNode :: valueNode :: rest =>
    (match sliceKey text keyNode with
     | some key => [(key, valueNode)]
     | none => []) ++ decodedPairs rest text
  | _ => []

/-- Shape lookup of a Zod object schema (`shape[key]`). -/
def zshapeLookup (shape : List (Str × ZSchema)) (key : Str) : Option ZSchema :=
  match shape with
  | [] => none
  | (k2, cs) :: rest => if k2 = key then some cs else zshapeLookup rest key

/-- Witness of a reachable undeclared object key: walking `path` through
declared keys of nested object schemas and the corresponding object fields
of the value leads to an object value owning key `k` while the object
schema reached there does not declare `k`. -/
def hasExtraKeyAt (s : ZSchema) (v : JValue) (path : List Str) (k : Str) : Bool :=
  match path with
  | [] =>
    (match s, v with
     | .obj shape _, .obj fields =>
       decide (k ∈ fields.map (fun e => e.1)) && (zshapeLookup shape k).isNone
     | _, _ => false)
  | key :: rest =>
    (match s, v with
     | .obj shape _, .obj fields =>
       (match zshapeLookup shape key, jsLookup fields key with
        | some cs, some v2 => hasExtraKeyAt cs v2 rest k
        | _, _ => false)
     | _, _ => false)

/-- Source text `{"a": 1, "c": true}`. -/
def textAC : Str := "\x7b\"a\": 1, \"c\": true\x7d".toList

/-- The `jsonc-parser` tree of `textAC`: an object node whose children are
one `property` node per member; each property node holds the string key
node and the value node, and spans from its key to the end of its value. -/
def treeAC : JNode :=
  .mk .object 0 19
    [.mk .property 1 6
       [.mk .string 1 3 [] (some (.str ("a".toList))),
        .mk .number 6 1 [] (some (.num 1))] none,
     .mk .property 9 9
       [.mk .string 9 3 [] (some (.str ("c".toList))),
        .mk .boolean 14 4 [] (some (.bool true))] none] none

/-- Source text `{"c": 1}`. -/
def textC : Str := "\x7b\"c\": 1\x7d".toList

/-- The `jsonc-parser` tree of `textC`. -/
def treeC : JNode :=
  .mk .object 0 8
    [.mk .property 1 6
       [.mk .string 1 3 [] (some (.str ("c".toList))),
        .mk .number 6 1 [] (some (.num 1))] none] none

/-- Source text `{"a": 1}`. -/
def textA : Str := "\x7b\"a\": 1\x7d".toList

/-- The `jsonc-parser` tree of `textA`. -/
def treeA : JNode :=
  .mk .object 0 8
    [.mk .property 1 6
       [.mk .string 1 3 [] (some (.str ("a".toList))),
        .mk .number 6 1 [] (some (.num 1))] none] none

/-- Source text `null`. -/
def textNull : Str := "null".toList

/-- The `jsonc-parser` tree of `textNull`. -/
def treeNull : JNode := .mk .nullType 0 4 [] (some .null)

/-- Source text `1`. -/
def textNum : Str := "1".toList

/-- The `jsonc-parser` tree of `textNum`. -/
def treeNum : JNode := .mk .number 0 1 [] (some (.num 1))

/-- Schema `z.object({ a: z.number() })` (default policy `strip`). -/
def schemaA : ZSchema := .obj [(("a".toList), .prim .znum)] .strip

/-- Schema `z.object({ a: z.array(z.number()) })`. -/
def schemaArrA : ZSchema := .obj [(("a".toList), .arr (.prim .znum))] .strip

/-- Schema `z.union([z.union([z.string(), z.number()]), z.boolean()])`. -/
def schemaU : ZSchema :=
  .union (.union (.prim .zstr) (.prim .znum) []) (.prim .zbool) []

/-- Heap store of the aliasing scenario: shape record 0 belongs to
`z.object({ a: inner })` and shape record 1 to the nested
`inner = z.object({ b: z.number() }).passthrough()`. -/
def store0 : Store :=
  [[(("a".toList), HSchema.obj 1 .passthrough)],
   [(("b".toList), HSchema.leaf)]]

/-- The outer schema value of the aliasing scenario. -/
def hschema0 : HSchema := .obj 0 .strip

/-- Source text `{"t": null}`. -/
def textTU : Str := "\x7b\"t\": null\x7d".toList

/-- The `jsonc-parser` tree of `textTU`. -/
def treeTU : JNode :=
  .mk .object 0 11
    [.mk .property 1 9
       [.mk .string 1 3 [] (some (.str ("t".toList))),
        .mk .nullType 6 4 [] (some .null)] none] none

/-- Schema `z.object({ t: z.union([z.string(), z.number()]) })`: a
union-typed field nested inside an object. -/
def schemaTU : ZSchema :=
  .obj [(("t".toList), .union (.prim .zstr) (.prim .znum) [])] .strip

/-- Text for the duplicate-key scenario of `buildPointerMap`. -/
def textK : Str := "xkyAwkzB".toList

/-- Children of an object node whose decoded pair keys collide: pairing
these four property nodes two at a time decodes the key slice `k` twice
(offsets 1 and 5 of `textK`). -/
def dupProps : List JNode :=
  [.mk .property 0 3 [] none, .mk .property 3 1 [] none,
   .mk .property 4 3 [] none, .mk .property 7 1 [] none]

theorem splitLines_ne_nil (s : Str) : splitLines s ≠ [] := by
  induction s using splitLines.induct <;> simp_all [splitLines]

theorem splitLines_length (s : Str) : (splitLines s).length = sepCount s + 1 := by
  induction s using splitLines.induct <;> simp_all [splitLines, sepCount]

theorem splitLines_no_sep (s : Str) (h : hasSep s = false) : splitLines s = [s] := by
  induction s using splitLines.induct <;> simp_all [splitLines, hasSep]

theorem hasSep_of_sep_mem (s : Str) (h : hasSep s = true) : 1 ≤ sepCount s := by
  induction s using splitLines.induct <;> simp_all [sepCount, hasSep]

theorem lastSepEnd_le (s : Str) : lastSepEnd s ≤ s.length := by
  induction s using splitLines.induct <;> simp_all [lastSepEnd] <;> split <;> omega

theorem hasSep_false_sepCount (s : Str) (h : hasSep s = false) : sepCount s = 0 := by
  induction s using splitLines.induct <;> simp_all [sepCount, hasSep]

theorem splitLines_getLastD (s : Str) :
    ((splitLines s).getLastD []).length = s.length - lastSepEnd s := by
  induction s using splitLines.induct with
  | case1 => simp [splitLines, lastSepEnd]
  | case2 rest ih =>
    rw [show splitLines ('\r' :: '\n' :: rest) = [] :: splitLines rest from rfl,
      List.getLastD_cons]
    by_cases h : hasSep rest
    · have hle := lastSepEnd_le rest
      simp only [lastSepEnd, h, if_true]
      simp only [List.length_cons]
      omega
    · simp only [Bool.not_eq_true] at h
      rw [splitLines_no_sep rest h]
      simp [lastSepEnd, h]
  | case3 rest ih =>
    rw [show splitLines ('\n' :: rest) = [] :: splitLines rest from rfl, List.getLastD_cons]
    by_cases h : hasSep rest
    · have hle := lastSepEnd_le rest
      simp only [lastSepEnd, h, if_true]
      simp only [List.length_cons]
      omega
    · simp only [Bool.not_eq_true] at h
      rw [splitLines_no_sep rest h]
      simp [lastSepEnd, h]
  | case4 c rest h1 h2 l ls heq ih =>
    have hunfold : splitLines (c :: rest) = (c :: l) :: ls := by
      rw [splitLines.eq_def]
      split <;> simp_all
    have hlast : lastSepEnd (c :: rest) = if hasSep rest then 1 + lastSepEnd rest else 0 := by
      rw [lastSepEnd.eq_def]
      split <;> simp_all
    rw [hunfold, hlast]
    match ls, heq with
    | [], heq =>
      have hns : hasSep rest = false := by
        by_contra hx
        simp only [Bool.not_eq_false] at hx
        have := hasSep_of_sep_mem rest hx
        have := splitLines_length rest
        rw [heq] at this
        simp at this
        omega
      have : l = rest := by
        have := splitLines_no_sep rest hns
        rw [heq] at this
        simp_all
      subst this
      simp [hns]
    | a :: ls2, heq =>
      rw [heq] at ih
      have hs : hasSep rest = true := by
        by_contra hx
        simp only [Bool.not_eq_true] at hx
        have h0 := hasSep_false_sepCount rest hx
        have hlen := splitLines_length rest
        rw [heq] at hlen
        simp [h0] at hlen
      have hle := lastSepEnd_le rest
      rw [List.getLastD_cons] at ih ⊢
      have hdefault : (a :: ls2).getLastD (c :: l) = (a :: ls2).getLastD l := by
        rw [List.getLastD_cons, List.getLastD_cons]
      rw [hdefault, ih]
      simp only [hs, if_true, List.length_cons]
      omega
  | case5 c rest h1 h2 heq ih => exact absurd heq (splitLines_ne_nil rest)

/-- C7: for a valid offset, `positionFromOffset` returns line = (number of
`\r?\n` separators, a `\n` tolerating a preceding `\r`, in the text prefix
ending at the offset) + 1 and column = offset minus the index just past the
last separator before the offset, plus 1; for a negative offset or one
beyond the text length it returns `(0, 0)` instead of failing (a
non-numeric offset is not representable in the integer model). -/
theorem positionFromOffset_spec (text : Str) (offset : Int) :
    (0 ≤ offset → offset ≤ (text.length : Int) →
      positionFromOffset text offset =
        (sepCount (text.take offset.toNat) + 1,
         offset.toNat - lastSepEnd (text.take offset.toNat) + 1)) ∧
    ((offset < 0 ∨ (text.length : Int) < offset) →
      positionFromOffset text offset = (0, 0)) := by
  constructor
  · intro h0 hlen
    have hlenT : (text.take offset.toNat).length = offset.toNat := by
      simp only [List.length_take]
      omega
    have h1 := splitLines_length (text.take offset.toNat)
    have h2 := splitLines_getLastD (text.take offset.toNat)
    rw [hlenT] at h2
    simp only [positionFromOffset]
    rw [if_neg (by omega)]
    rw [h1, h2]
  · intro h
    simp only [positionFromOffset]
    rw [if_pos (by omega)]

/-- Witness for the C7 theorem: text `ab\ncd` with the valid offset 4
(second line, second column) and the invalid offset -1. -/
theorem positionFromOffset_spec_witness :
    positionFromOffset ("ab\ncd".toList) 4 = (2, 2) ∧
    positionFromOffset ("ab\ncd".toList) (-1) = (0, 0) := by
  constructor
  · have h := (positionFromOffset_spec ("ab\ncd".toList) 4).1 (by decide) (by decide)
    rw [h]
    decide
  · exact (positionFromOffset_spec ("ab\ncd".toList) (-1)).2 (by decide)

theorem groupIssues_go (issues : List ValidationIssue) (g : GroupedIssues) :
    issues.foldl
      (fun g issue =>
        if msgHas issue.message ("missing".toList) ∨ msgHas issue.message ("required".toList) then
          { g with missing := g.missing ++ [issue] }
        else if msgHas issue.message ("unexpected".toList) then
          { g with unexpected := g.unexpected ++ [issue] }
        else if msgHas issue.message ("invalid".toList) then
          { g with invalid := g.invalid ++ [issue] }
        else
          { g with other := g.other ++ [issue] }) g =
      ⟨g.missing ++ issues.filter (fun i => classifyIssue i = .missing),
       g.invalid ++ issues.filter (fun i => classifyIssue i = .invalid),
       g.unexpected ++ issues.filter (fun i => classifyIssue i = .unexpected),
       g.other ++ issues.filter (fun i => classifyIssue i = .other)⟩ := by
  induction issues generalizing g with
  | nil => simp
  | cons i rest ih =>
    rw [List.foldl_cons]
    by_cases h1 : msgHas i.message ("missing".toList) = true ∨
        msgHas i.message ("required".toList) = true
    · have hc : classifyIssue i = .missing := by
        unfold classifyIssue
        rw [if_pos h1]
      rw [if_pos h1, ih]
      simp [List.filter_cons, hc]
    · by_cases h2 : msgHas i.message ("unexpected".toList) = true
      · have hc : classifyIssue i = .unexpected := by
          unfold classifyIssue
          rw [if_neg h1, if_pos h2]
        rw [if_neg h1, if_pos h2, ih]
        simp [List.filter_cons, hc]
      · by_cases h3 : msgHas i.message ("invalid".toList) = true
        · have hc : classifyIssue i = .invalid := by
            unfold classifyIssue
            rw [if_neg h1, if_neg h2, if_pos h3]
          rw [if_neg h1, if_neg h2, if_pos h3, ih]
          simp [List.filter_cons, hc]
        · have hc : classifyIssue i = .other := by
            unfold classifyIssue
            rw [if_neg h1, if_neg h2, if_neg h3]
          rw [if_neg h1, if_neg h2, if_neg h3, ih]
          simp [List.filter_cons, hc]

theorem groupIssues_filter (issues : List ValidationIssue) :
    groupIssuesByCategory issues =
      ⟨issues.filter (fun i => classifyIssue i = .missing),
       issues.filter (fun i => classifyIssue i = .invalid),
       issues.filter (fun i => classifyIssue i = .unexpected),
       issues.filter (fun i => classifyIssue i = .other)⟩ := by
  unfold groupIssuesByCategory
  rw [groupIssues_go]
  simp

/-- C8: `createErrorSummary` classifies each issue by the case-insensitive
substring rules of the claim (missing/required, else unexpected, else
invalid, else other), renders the non-empty categories in a fixed order
with one bullet line per issue in input order plus an indented suggestion
line when present, omits empty categories, and returns the empty string on
an empty issue list: it agrees with the renderer `summarySpec` written
directly from the claim. -/
theorem createErrorSummary_spec (issues : List ValidationIssue) :
    createErrorSummary issues = summarySpec issues ∧ createErrorSummary [] = [] := by
  refine ⟨?_, rfl⟩
  unfold createErrorSummary summarySpec
  rw [groupIssues_filter]

/-- C9: `validateJsonFile` maps every failing synchronous read to a single
issue whose message is prefixed "File error: ", with empty pointer and
position `(0,0)`, and maps a successful read to `validateJson` applied to
the file contents; the model is total, so no exception escapes to the
caller. -/
theorem validateJsonFile_spec (parseOf : Str → ParseOutcome) (schema : ZSchema)
    (m raw : Str) :
    validateJsonFile parseOf (.error m) schema =
      ⟨false, none, [⟨"File error: ".toList ++ m, none, [], 0, 0⟩]⟩ ∧
    validateJsonFile parseOf (.ok raw) schema = validateJson (parseOf raw) raw schema :=
  ⟨rfl, rfl⟩

/-- C4: when the tolerant parse reports syntax errors or yields no tree,
`validateJson` returns invalid with exactly one issue per reported syntax
error — message "Syntax error: " followed by the printed human-readable
error code, empty pointer, line/column resolved from the error's offset —
and structural validation is never attempted: every produced issue carries
the syntax prefix, so no Missing/Invalid/Unexpected issue appears. -/
theorem validateJson_parseErrors_spec (text : Str) (schema : ZSchema)
    (treeOpt : Option JNode) (errs : List ParseError)
    (h : errs ≠ [] ∨ treeOpt = none) :
    validateJson (.ok (treeOpt, errs)) text schema =
      ⟨false, none,
        errs.map (fun e =>
          let lc := positionFromOffset text e.offset
          ⟨"Syntax error: ".toList ++ printParseErrorCode e.error, none, [], lc.1, lc.2⟩)⟩ ∧
    ∀ i ∈ (validateJson (.ok (treeOpt, errs)) text schema).errors,
      ∃ tailMsg, i.message = "Syntax error: ".toList ++ tailMsg := by
  have hmain : validateJson (.ok (treeOpt, errs)) text schema =
      ⟨false, none,
        errs.map (fun e =>
          let lc := positionFromOffset text e.offset
          ⟨"Syntax error: ".toList ++ printParseErrorCode e.error, none, [], lc.1, lc.2⟩)⟩ := by
    cases treeOpt with
    | none => rfl
    | some tree =>
      cases errs with
      | nil => simp at h
      | cons e es => rfl
  refine ⟨hmain, ?_⟩
  rw [hmain]
  intro i hi
  simp only [List.mem_map] at hi
  obtain ⟨e, _, rfl⟩ := hi
  exact ⟨_, rfl⟩

/-- Witness for C4: the malformed text of spec scenario C, with the parser
reporting one ValueExpected error at offset 6 and no tree. -/
theorem validateJson_parseErrors_spec_witness :
    validateJson (.ok (none, [⟨6, "ValueExpected".toList⟩])) ("\x7b\"a\": \x7d".toList)
        schemaA =
      ⟨false, none, [⟨"Syntax error: ValueExpected".toList, none, [], 1, 7⟩]⟩ := by
  have h := (validateJson_parseErrors_spec ("\x7b\"a\": \x7d".toList) schemaA none
    [⟨6, "ValueExpected".toList⟩] (Or.inr rfl)).1
  rw [h]
  rfl

/-- Well-formedness of an issue produced by the Zod engine: a union issue
always carries at least one rejected alternative, each with at least one
issue. -/
def goodIssue : ZIssue → Prop
  | .invalidUnion _ ue => ue ≠ [] ∧ ∀ l ∈ ue, l ≠ []
  | _ => True

theorem zodParse_good (s : ZSchema) (v : Option JValue) (path : List Seg) :
    ∀ i ∈ zodParse s v path, goodIssue i := by
  refine zodParse.induct
    (fun s v path => ∀ i ∈ zodParse s v path, goodIssue i)
    (fun alts v path => ∀ l ∈ zodParseAlts alts v path, ∀ i ∈ l, goodIssue i)
    (fun elem xs n path => ∀ i ∈ zodParseArr elem xs n path, goodIssue i)
    (fun shape fields path => ∀ i ∈ zodParseShape shape fields path, goodIssue i)
    ?_ ?_ ?_ ?_ ?_ ?_ ?_ ?_ ?_ ?_ ?_ ?_ ?_ ?_ s v path
  · intro v path k h i hi
    simp [zodParse, h] at hi
  · intro v path k h i hi
    simp only [zodParse, if_neg h, List.mem_singleton] at hi
    subst hi
    simp [goodIssue]
  · intro v path shape uk fields h ih i hi
    simp only [zodParse, h] at hi
    rcases List.mem_append.mp hi with hl | hr
    · exact ih i hl
    · split at hr
      · simp only [List.mem_singleton] at hr
        subst hr
        simp [goodIssue]
      · simp at hr
  · intro v path shape uk h i hi
    simp only [zodParse, h, List.mem_singleton] at hi
    subst hi
    simp [goodIssue]
  · intro v path elem xs h ih i hi
    simp only [zodParse, h] at hi
    exact ih i hi
  · intro v path elem h i hi
    simp only [zodParse, h, List.mem_singleton] at hi
    subst hi
    simp [goodIssue]
  · intro v path a b rest results h ih1 ih2 ih3 i hi
    simp only [zodParse, if_pos h] at hi
    simp at hi
  · intro v path a b rest results h ih1 ih2 ih3 i hi
    simp only [zodParse, if_neg h, List.mem_singleton] at hi
    subst hi
    simp only [goodIssue]
    simp only [List.any_eq_true, List.isEmpty_iff, not_exists, not_and] at h
    exact ⟨List.cons_ne_nil _ _, fun l hl => h l hl⟩
  · intro v path l hl i hi
    simp [zodParseAlts] at hl
  · intro v path a rest ih1 ih2 l hl i hi
    simp only [zodParseAlts, List.mem_cons] at hl
    rcases hl with rfl | hl
    · exact ih1 i hi
    · exact ih2 l hl i hi
  · intro elem n path i hi
    simp [zodParseArr] at hi
  · intro elem n path x rest ih1 ih2 i hi
    simp only [zodParseArr] at hi
    rcases List.mem_append.mp hi with hl | hr
    · exact ih1 i hl
    · exact ih2 i hr
  · intro fields path i hi
    simp [zodParseShape] at hi
  · intro fields path key cs rest ih1 ih2 i hi
    simp only [zodParseShape] at hi
    rcases List.mem_append.mp hi with hl | hr
    · exact ih1 i hl
    · exact ih2 i hr

theorem flattenIssues_ne_nil {s : ZSchema} {v : Option JValue} {path : List Seg}
    (h : zodParse s v path ≠ []) : flattenIssues (zodParse s v path) ≠ [] := by
  obtain ⟨i, rest, heq⟩ : ∃ i rest, zodParse s v path = i :: rest := by
    cases hz : zodParse s v path with
    | nil => exact absurd hz h
    | cons a l => exact ⟨a, l, rfl⟩
  have hgood := zodParse_good s v path i (by rw [heq]; exact List.mem_cons_self _ _)
  rw [heq]
  simp only [flattenIssues, List.flatMap_cons]
  intro habs
  rcases List.append_eq_nil.mp habs with ⟨h1, _⟩
  match i, hgood, h1 with
  | .invalidType _ _ _, _, h1 => simp at h1
  | .unrecognizedKeys _ _, _, h1 => simp at h1
  | .invalidUnion p ue, ⟨hne, hall⟩, h1 =>
    cases ue with
    | nil => exact hne rfl
    | cons l rest2 =>
      have hl : l = [] := by
        simp only [List.flatMap_cons] at h1
        exact (List.append_eq_nil.mp h1).1
      exact hall l (List.mem_cons_self _ _) hl

/-- C2: for every parse outcome satisfying the documented parser contract
(an absent tree is accompanied by at least one syntax error), every text
and every schema of the typed Zod API, the result of `validateJson`
satisfies: `errors` is empty exactly when `valid` is true, and `data` is
present exactly when `valid` is true; the model is a total function, so no
exception reaches the caller. -/
theorem validateJson_result_invariants (outcome : ParseOutcome) (text : Str)
    (schema : ZSchema)
    (hparser : ∀ errs, outcome = .ok (none, errs) → errs ≠ []) :
    ((validateJson outcome text schema).errors = [] ↔
      (validateJson outcome text schema).valid = true) ∧
    ((validateJson outcome text schema).data.isSome = true ↔
      (validateJson outcome text schema).valid = true) := by
  match outcome with
  | .error m => simp [validateJson]
  | .ok (none, errs) =>
    have hne := hparser errs rfl
    simp [validateJson, hne]
  | .ok (some tree, []) =>
    simp only [validateJson]
    cases hds : deepStrict schema with
    | error m => simp
    | ok ss =>
      cases hz : zodParse ss (some (getNodeValue tree)) [] with
      | nil => simp [hz]
      | cons i rest =>
        have hflat : flattenIssues (zodParse ss (some (getNodeValue tree)) []) ≠ [] :=
          flattenIssues_ne_nil (by rw [hz]; simp)
        rw [hz] at hflat
        simp [hz, hflat]
  | .ok (some tree, e :: es) =>
    simp [validateJson]

/-- Witness for C2: a successful pipeline on the text `1` against
`z.number()`, with the parser contract discharged. -/
theorem validateJson_result_invariants_witness :
    ((validateJson (.ok (some treeNum, [])) textNum (.prim .znum)).errors = [] ↔
      (validateJson (.ok (some treeNum, [])) textNum (.prim .znum)).valid = true) ∧
    ((validateJson (.ok (some treeNum, [])) textNum (.prim .znum)).data.isSome = true ↔
      (validateJson (.ok (some treeNum, [])) textNum (.prim .znum)).valid = true) :=
  validateJson_result_invariants (.ok (some treeNum, [])) textNum (.prim .znum)
    (fun errs h => by simp at h)

theorem escSlash_no_slash (s : Str) : '/' ∉ escSlash s := by
  induction s with
  | nil => simp [escSlash]
  | cons c rest ih =>
    simp only [escSlash, List.flatMap_cons] at *
    intro h
    rcases List.mem_append.mp h with hl | hr
    · by_cases hc : c = '/'
      · simp [hc] at hl
      · simp [hc] at hl
        first
        | exact hc hl
        | exact hc hl.symm
    · exact ih hr

theorem esc_no_slash (s : Str) : '/' ∉ esc s := escSlash_no_slash _

theorem unesc_cons_of_ne (c : Char) (xs : Str) (h : c ≠ '~') :
    unesc (c :: xs) = c :: unesc xs := by
  rw [unesc.eq_def]
  split <;> simp_all

theorem unesc_esc (s : Str) : unesc (esc s) = s := by
  induction s with
  | nil => rfl
  | cons c rest ih =>
    show unesc (escSlash (escTilde (c :: rest))) = c :: rest
    have ht : escTilde (c :: rest) =
        (if c = '~' then ['~', '0'] else [c]) ++ escTilde rest := by
      simp [escTilde]
    rw [ht]
    have hap : escSlash ((if c = '~' then ['~', '0'] else [c]) ++ escTilde rest) =
        escSlash (if c = '~' then ['~', '0'] else [c]) ++ escSlash (escTilde rest) := by
      simp [escSlash]
    rw [hap]
    by_cases h1 : c = '~'
    · subst h1
      show unesc ('~' :: '0' :: escSlash (escTilde rest)) = '~' :: rest
      rw [show unesc ('~' :: '0' :: escSlash (escTilde rest)) =
        '~' :: unesc (escSlash (escTilde rest)) from rfl]
      exact congrArg _ ih
    · by_cases h2 : c = '/'
      · subst h2
        show unesc ('~' :: '1' :: escSlash (escTilde rest)) = '/' :: rest
        rw [show unesc ('~' :: '1' :: escSlash (escTilde rest)) =
          '/' :: unesc (escSlash (escTilde rest)) from rfl]
        exact congrArg _ ih
      · have h3 : escSlash [c] = [c] := by simp [escSlash, h2]
        rw [if_neg h1, h3]
        rw [show ([c] : Str) ++ escSlash (escTilde rest) = c :: escSlash (escTilde rest) from rfl]
        rw [unesc_cons_of_ne c _ h1]
        exact congrArg _ ih

theorem esc_inj {a b : Str} (h : esc a = esc b) : a = b := by
  have h2 := congrArg unesc h
  rwa [unesc_esc, unesc_esc] at h2

theorem childPtr_inj (ptr a b : Str) :
    ptr ++ '/' :: esc a = ptr ++ '/' :: esc b ↔ a = b := by
  constructor
  · intro h
    have h2 := List.append_cancel_left h
    injection h2 with _ h3
    exact esc_inj h3
  · rintro rfl
    rfl

theorem ptrLookup_cons_ne (p0 q : Str) (o0 : Nat) (L : PtrMap) (hne : p0 ≠ q) :
    ptrLookup ((p0, o0) :: L) q = ptrLookup L q := by
  unfold ptrLookup
  rw [List.reverse_cons, List.find?_append]
  have h1 : ([((p0 : Str), o0)].find? (fun e => decide (e.1 = q))) = none := by
    simp [List.find?, hne]
  rw [h1]
  simp

theorem ptr_ne_child (ptr x : Str) : ptr ≠ ptr ++ '/' :: x := by
  intro h
  have h2 := congrArg List.length h
  simp at h2

theorem ptrLookup_mapped (L : List (Str × JNode)) (ptr key : Str) :
    ptrLookup (L.map (fun e => (ptr ++ '/' :: esc e.1, e.2.offset)))
        (ptr ++ '/' :: esc key) =
      (L.reverse.find? (fun e => decide (e.1 = key))).map (fun e => e.2.offset) := by
  unfold ptrLookup
  rw [← List.map_reverse, List.find?_map]
  have hfun : ((fun e : Str × Nat => decide (e.1 = ptr ++ '/' :: esc key)) ∘
      (fun e : Str × JNode => (ptr ++ '/' :: esc e.1, e.2.offset))) =
      (fun e : Str × JNode => decide (e.1 = key)) := by
    funext e
    simp only [Function.comp_apply]
    exact decide_eq_decide.mpr (childPtr_inj ptr e.1 key)
  rw [hfun]
  cases L.reverse.find? (fun e => decide (e.1 = key)) <;> rfl

theorem buildPointerMap_property (c : JNode) (t p : Str) (h : c.type = .property) :
    buildPointerMap c t p = [(p, c.offset)] := by
  match c with
  | .mk ty o len cs v =>
    simp only [JNode.type] at h
    subst h
    simp [buildPointerMap, JNode.offset]

theorem decodedPairs_mem (cs : List JNode) (t : Str) :
    ∀ p ∈ decodedPairs cs t, p.2 ∈ cs := by
  induction cs, t using decodedPairs.induct with
  | case1 t2 keyNode valueNode rest ih =>
    intro p hp
    simp only [decodedPairs] at hp
    rcases List.mem_append.mp hp with hl | hr
    · split at hl
      · simp only [List.mem_singleton] at hl
        subst hl
        simp
      · simp at hl
    · have := ih p hr
      simp [this]
  | case2 cs2 t2 h => intro p hp; rw [decodedPairs.eq_def] at hp; split at hp <;> simp_all

theorem buildPairs_props (cs : List JNode) (t ptr : Str)
    (hprops : ∀ c ∈ cs, c.type = .property) :
    buildPairs cs t ptr =
      (decodedPairs cs t).map (fun e => (ptr ++ '/' :: esc e.1, e.2.offset)) := by
  induction cs, t using decodedPairs.induct with
  | case1 t2 keyNode valueNode rest ih =>
    have hv : valueNode.type = .property := hprops valueNode (by simp)
    have hrest : ∀ c ∈ rest, c.type = .property := fun c hc => hprops c (by simp [hc])
    simp only [buildPairs, decodedPairs]
    rw [ih hrest]
    split
    · rw [buildPointerMap_property valueNode t2 _ hv]
      simp
    · simp
  | case2 cs2 t2 h =>
    rw [buildPairs.eq_def, decodedPairs.eq_def]
    split
    · rename_i k v rest
      exact absurd rfl (h k v rest)
    · simp

/-- C10: when the children of a parsed object node (property nodes, as
`jsonc-parser` produces them) decode the same key string for two or more
pairs of the source's two-at-a-time pairing, the pointer built for that key
maps to the offset of the value node of the last such pair — later
`Object.assign` writes win — and no error is produced (the builder is
total); property-node values contribute no descendant entries, so the
key's pointer is the only affected one. -/
theorem buildPointerMap_dup_keys (t : Str) (o len : Nat) (cs : List JNode)
    (v : Option JValue) (ptr key : Str)
    (hprops : ∀ c ∈ cs, c.type = .property)
    (hdup : 2 ≤ ((decodedPairs cs t).filter (fun e => decide (e.1 = key))).length) :
    ∃ lastPair,
      (decodedPairs cs t).reverse.find? (fun e => decide (e.1 = key)) = some lastPair ∧
      lastPair.1 = key ∧
      ptrLookup (buildPointerMap (.mk .object o len cs v) t ptr)
        (ptr ++ '/' :: esc key) = some lastPair.2.offset := by
  have hmap : buildPointerMap (.mk .object o len cs v) t ptr =
      (ptr, o) :: buildPairs cs t ptr := by
    simp [buildPointerMap]
  have hfound : ((decodedPairs cs t).reverse.find?
      (fun e => decide (e.1 = key))).isSome = true := by
    rw [List.find?_isSome]
    have hne : (decodedPairs cs t).filter (fun e => decide (e.1 = key)) ≠ [] := by
      intro habs
      rw [habs] at hdup
      simp at hdup
    obtain ⟨x, hx⟩ := List.exists_mem_of_ne_nil _ hne
    have hx2 := List.mem_filter.mp hx
    exact ⟨x, List.mem_reverse.mpr hx2.1, hx2.2⟩
  obtain ⟨lastPair, hlast⟩ := Option.isSome_iff_exists.mp hfound
  refine ⟨lastPair, hlast, ?_, ?_⟩
  · have := List.find?_some hlast
    simpa using this
  · rw [hmap, ptrLookup_cons_ne _ _ _ _ (ptr_ne_child ptr _),
      buildPairs_props cs t ptr hprops, ptrLookup_mapped, hlast]
    rfl

/-- Witness for C10: object node over `textK` whose four property children
pair into two pairs both decoding the key `k`; the pointer `/k` maps to the
offset 7 of the last pair's value node. -/
theorem buildPointerMap_dup_keys_witness :
    ∃ lastPair,
      (decodedPairs dupProps textK).reverse.find?
        (fun e => decide (e.1 = "k".toList)) = some lastPair ∧
      lastPair.1 = "k".toList ∧
      ptrLookup (buildPointerMap (.mk .object 0 8 dupProps none) textK [])
        ([] ++ '/' :: esc ("k".toList)) = some lastPair.2.offset :=
  buildPointerMap_dup_keys textK 0 8 dupProps none [] ("k".toList)
    (by decide) (by decide)

/-- C5 (evaluation at the failing input): on the document `{"a": 1}` the
pointer index contains only the root pointer. `buildPointerMap` pairs an
object's children two at a time as key/value, but `jsonc-parser` emits one
property node per member, so the single-property object has no partner
node, the member is skipped, and looking up the pointer `/a` built by
`pathToPointer` fails — the claim's completeness and inversion properties
fail on this input. -/
theorem buildPointerMap_missing_entry :
    buildPointerMap treeA textA [] = [([], 0)] ∧
    ptrLookup (buildPointerMap treeA textA [])
      (pathToPointer [Seg.key ("a".toList)]) = none := by
  have h : buildPointerMap treeA textA [] = [([], 0)] := by
    simp [treeA, buildPointerMap, buildPairs]
  refine ⟨h, ?_⟩
  rw [h]
  decide

/-- C3 (code evaluation at the failing input): deep-strictification of
`z.object({ a: z.object({ b: z.number() }).passthrough() })` returns a
derived strict object, but the loop writes the strictified child back into
the shape record shared with the caller's schema (`strict()` spreads
`_def`, so `strictObj._def.shape()` returns the caller's record): after
the call the record of shape id 0 — the one the input schema's shape
closure returns — holds a strict child where it held a passthrough child
before, so the input schema's nested unknown-keys policy has changed. -/
theorem deepStrictH_mutates_input :
    deepStrictH 5 store0 hschema0 =
      some (.ok ([[(("a".toList), HSchema.obj 1 .strict)],
                  [(("b".toList), HSchema.leaf)]], HSchema.obj 0 .strict)) ∧
    getShape store0 0 = [(("a".toList), HSchema.obj 1 .passthrough)] ∧
    ([(("a".toList), HSchema.obj 1 .strict)] :
        List (Str × HSchema)) ≠ [(("a".toList), HSchema.obj 1 .passthrough)] := by
  refine ⟨?_, by decide, by decide⟩
  simp [deepStrictH, deepStrictKeys, store0, hschema0, getShape, hLookup, setEntry]

theorem zodParseAlts_eq_map (alts : List ZSchema) (v : Option JValue) (path : List Seg) :
    zodParseAlts alts v path = alts.map (fun s => zodParse s v path) := by
  induction alts with
  | nil => simp [zodParseAlts]
  | cons a rest ih => simp [zodParseAlts, ih]

theorem zodParse_obj_eq (shape : List (Str × ZSchema)) (uk : UK)
    (fields : List (Str × JValue)) (basePath : List Seg) :
    zodParse (.obj shape uk) (some (.obj fields)) basePath =
      zodParseShape shape fields basePath ++
        (if uk = .strict ∧ ((fields.map (fun e => e.1)).filter
            (fun k2 => decide (k2 ∉ shape.map (fun e => e.1)))) ≠ [] then
          [ZIssue.unrecognizedKeys basePath ((fields.map (fun e => e.1)).filter
            (fun k2 => decide (k2 ∉ shape.map (fun e => e.1))))]
        else []) := by
  have hobj : asObjFields (some (JValue.obj fields)) = some fields := rfl
  simp only [zodParse, hobj]

/-- C6 (amended): union flattening is one level deep, at any path. When
the Zod failure contains an `invalid_union` issue — at whatever path the
rejected union-typed value sits, since a union field nested in objects
contributes its `invalid_union` issue to the engine's top-level issue
list — `validateJson` emits one issue per issue of each rejected
alternative's own issue list, rendered individually; an inner issue that
is itself a nested union failure stays a single aggregated issue rather
than being recursed into. -/
theorem validateJson_union_flatten (text : Str) (tree : JNode) (schema ss : ZSchema)
    (p : List Seg) (ue : List (List ZIssue))
    (hds : deepStrict schema = .ok ss)
    (hmem : ZIssue.invalidUnion p ue ∈ zodParse ss (some (getNodeValue tree)) []) :
    (validateJson (.ok (some tree, [])) text schema).valid = false ∧
    ∀ l ∈ ue, ∀ i ∈ l,
      handleIssue text (buildPointerMap tree text []) i ∈
        (validateJson (.ok (some tree, [])) text schema).errors := by
  simp only [validateJson, hds]
  cases hz : zodParse ss (some (getNodeValue tree)) [] with
  | nil => rw [hz] at hmem; cases hmem
  | cons i0 rest0 =>
    rw [hz] at hmem
    refine ⟨rfl, ?_⟩
    intro l hl i hi
    have hflat : i ∈ flattenIssues (i0 :: rest0) := by
      unfold flattenIssues
      rw [List.mem_flatMap]
      refine ⟨ZIssue.invalidUnion p ue, hmem, ?_⟩
      rw [List.mem_flatMap]
      exact ⟨l, hl, hi⟩
    exact List.mem_map_of_mem _ hflat

/-- C6 counterexample: for the nested union schema
`z.union([z.union([z.string(), z.number()]), z.boolean()])` on document
`null`, the first emitted issue is the aggregated "Invalid input" issue of
the rejected inner union — the leaf issues (expected string / expected
number) are not emitted — so `validateJson` does emit a single aggregated
no-union-member-matched issue, contradicting the claim. -/
theorem validateJson_union_counter :
    (validateJson (.ok (some treeNull, [])) textNull schemaU).errors.map
        (fun i => i.message) =
      [("Validation error: Invalid input".toList),
       ("Validation error: Expected boolean, received null".toList)] ∧
    (∃ i ∈ (validateJson (.ok (some treeNull, [])) textNull schemaU).errors,
      i.message = "Validation error: Invalid input".toList) ∧
    ∀ i ∈ (validateJson (.ok (some treeNull, [])) textNull schemaU).errors,
      i.message ≠ "Validation error: Expected string, received null".toList := by
  have hval : getNodeValue treeNull = .null := by
    simp [treeNull, getNodeValue]
  have hds : deepStrict schemaU = .ok schemaU := by
    simp [schemaU, deepStrict]
  have hz : zodParse schemaU (some .null) [] =
      [.invalidUnion []
        [[.invalidUnion []
            [[.invalidType [] ("string".toList) ("null".toList)],
             [.invalidType [] ("number".toList) ("null".toList)]]],
         [.invalidType [] ("boolean".toList) ("null".toList)]]] := by
    simp [schemaU, zodParse, zodParseAlts, primAccepts, primName, parsedTypeO]
  have herr : (validateJson (.ok (some treeNull, [])) textNull schemaU).errors =
      [handleIssue textNull (buildPointerMap treeNull textNull [])
         (.invalidUnion []
            [[.invalidType [] ("string".toList) ("null".toList)],
             [.invalidType [] ("number".toList) ("null".toList)]]),
       handleIssue textNull (buildPointerMap treeNull textNull [])
         (.invalidType [] ("boolean".toList) ("null".toList))] := by
    simp only [validateJson, hds, hval, hz]
    simp [flattenIssues]
  have hbpm : buildPointerMap treeNull textNull [] = [([], 0)] := by
    simp [treeNull, buildPointerMap]
  rw [herr, hbpm]
  refine ⟨?_, ?_, ?_⟩
  · decide
  · decide
  · decide

/-- Witness for the amended C6 theorem: the union-typed field `t` of
`z.object({ t: z.union([z.string(), z.number()]) })` rejected on the
document `{"t": null}` — the `invalid_union` issue sits at the nested path
`/t`, and both alternatives' issues are emitted individually. -/
theorem validateJson_union_flatten_witness :
    (validateJson (.ok (some treeTU, [])) textTU schemaTU).valid = false ∧
    ∀ l ∈ [[ZIssue.invalidType [Seg.key ("t".toList)] ("string".toList) ("null".toList)],
           [ZIssue.invalidType [Seg.key ("t".toList)] ("number".toList) ("null".toList)]],
      ∀ i ∈ l,
        handleIssue textTU (buildPointerMap treeTU textTU []) i ∈
          (validateJson (.ok (some treeTU, [])) textTU schemaTU).errors :=
  validateJson_union_flatten textTU treeTU schemaTU
    (.obj [(("t".toList), .union (.prim .zstr) (.prim .znum) [])] .strict)
    [Seg.key ("t".toList)]
    [[.invalidType [Seg.key ("t".toList)] ("string".toList) ("null".toList)],
     [.invalidType [Seg.key ("t".toList)] ("number".toList) ("null".toList)]]
    (by simp [schemaTU, deepStrict, deepStrictShape])
    (by
      have hval : getNodeValue treeTU = .obj [(("t".toList), JValue.null)] := by
        simp [treeTU, getNodeValue, getProps, getNodeValues, objAssign, JNode.value]
      rw [hval, zodParse_obj_eq]
      simp [zodParseShape, zodParse, zodParseAlts, jsLookup, primAccepts, parsedTypeO,
        primName])

theorem deepStrict_obj (shape : List (Str × ZSchema)) (uk : UK) (ss : ZSchema)
    (h : deepStrict (.obj shape uk) = .ok ss) :
    ∃ shape2, deepStrictShape shape = .ok shape2 ∧ ss = .obj shape2 .strict := by
  cases hsh : deepStrictShape shape with
  | error m => simp [deepStrict, hsh] at h
  | ok shape2 =>
    simp [deepStrict, hsh] at h
    exact ⟨shape2, rfl, h.symm⟩

theorem deepStrictShape_keys (shape : List (Str × ZSchema)) :
    ∀ shape2, deepStrictShape shape = .ok shape2 →
      shape2.map (fun e => e.1) = shape.map (fun e => e.1) ∧
      ∀ key cs, zshapeLookup shape key = some cs →
        ∃ cs2, zshapeLookup shape2 key = some cs2 ∧ deepStrict cs = .ok cs2 := by
  induction shape with
  | nil =>
    intro shape2 h
    simp [deepStrictShape] at h
    subst h
    simp [zshapeLookup]
  | cons e rest ih =>
    obtain ⟨key0, cs0⟩ := e
    intro shape2 h
    cases hd : deepStrict cs0 with
    | error m => simp [deepStrictShape, hd] at h
    | ok cs0s =>
      cases hr : deepStrictShape rest with
      | error m => simp [deepStrictShape, hd, hr] at h
      | ok rest2 =>
        simp only [deepStrictShape, hd, hr] at h
        cases h
        obtain ⟨hkeys, hlook⟩ := ih rest2 hr
        constructor
        · simp [hkeys]
        · intro key cs hl
          by_cases hk : key0 = key
          · subst hk
            simp only [zshapeLookup, if_pos rfl] at hl ⊢
            cases hl
            exact ⟨cs0s, rfl, hd⟩
          · simp only [zshapeLookup, if_neg hk] at hl ⊢
            exact hlook key cs hl

theorem zshapeLookup_none (shape : List (Str × ZSchema)) (key : Str) :
    zshapeLookup shape key = none ↔ key ∉ shape.map (fun e => e.1) := by
  induction shape with
  | nil => simp [zshapeLookup]
  | cons e rest ih =>
    obtain ⟨k0, c0⟩ := e
    by_cases hk : k0 = key
    · subst hk
      simp only [zshapeLookup, if_pos rfl, List.map_cons, List.mem_cons]
      constructor
      · intro h
        exact Option.noConfusion h
      · intro h
        exact absurd (Or.inl trivial) h
    · simp only [zshapeLookup, if_neg hk, List.map_cons, List.mem_cons]
      rw [ih]
      have hne : ¬ key = k0 := fun h => hk h.symm
      constructor
      · intro h
        rintro (h2 | h2)
        · exact hne h2
        · exact h h2
      · intro h h2
        exact h (Or.inr h2)

theorem zodParseShape_mem (shape : List (Str × ZSchema)) (fields : List (Str × JValue))
    (path : List Seg) (key : Str) (cs : ZSchema)
    (hl : zshapeLookup shape key = some cs) :
    ∀ i ∈ zodParse cs (jsLookup fields key) (path ++ [Seg.key key]),
      i ∈ zodParseShape shape fields path := by
  induction shape with
  | nil => simp [zshapeLookup] at hl
  | cons e rest ih =>
    obtain ⟨k0, c0⟩ := e
    by_cases hk : k0 = key
    · subst hk
      simp only [zshapeLookup, if_pos rfl] at hl
      cases hl
      intro i hi
      simp only [zodParseShape]
      exact List.mem_append.mpr (Or.inl hi)
    · simp only [zshapeLookup, if_neg hk] at hl
      intro i hi
      simp only [zodParseShape]
      exact List.mem_append.mpr (Or.inr (ih hl i hi))

theorem joinSep_quote_mem (keys : List Str) (k : Str) (h : k ∈ keys) :
    ∃ pre post,
      joinSep (", ".toList) (keys.map quoteKey) = pre ++ quoteKey k ++ post := by
  induction keys with
  | nil => simp at h
  | cons k0 rest ih =>
    cases rest with
    | nil =>
      simp only [List.mem_singleton] at h
      subst h
      exact ⟨[], [], by simp [joinSep]⟩
    | cons r rs =>
      have hj2 : joinSep (", ".toList) ((k0 :: r :: rs).map quoteKey) =
          quoteKey k0 ++ ", ".toList ++ joinSep (", ".toList) ((r :: rs).map quoteKey) := by
        simp [joinSep]
      rcases List.mem_cons.mp h with rfl | hmem
      · refine ⟨[], ", ".toList ++ joinSep (", ".toList) ((r :: rs).map quoteKey), ?_⟩
        rw [hj2]
        simp [List.append_assoc]
      · obtain ⟨pre2, post2, hj⟩ := ih hmem
        refine ⟨quoteKey k0 ++ ", ".toList ++ pre2, post2, ?_⟩
        rw [hj2, hj]
        simp [List.append_assoc]

theorem mem_flattenIssues_of_mem {issues : List ZIssue} {p : List Seg} {keys : List Str}
    (h : ZIssue.unrecognizedKeys p keys ∈ issues) :
    ZIssue.unrecognizedKeys p keys ∈ flattenIssues issues := by
  unfold flattenIssues
  rw [List.mem_flatMap]
  exact ⟨_, h, by simp⟩

theorem hasExtraKey_value_obj (cs : ZSchema) (v2 : JValue) (rest : List Str) (k : Str)
    (h : hasExtraKeyAt cs v2 rest k = true) : ∃ fields2, v2 = .obj fields2 := by
  match v2 with
  | .obj fields2 => exact ⟨fields2, rfl⟩
  | .str s2 => cases rest <;> cases cs <;> exact Bool.noConfusion h
  | .num n2 => cases rest <;> cases cs <;> exact Bool.noConfusion h
  | .bool b2 => cases rest <;> cases cs <;> exact Bool.noConfusion h
  | .null => cases rest <;> cases cs <;> exact Bool.noConfusion h
  | .arr xs2 => cases rest <;> cases cs <;> exact Bool.noConfusion h

theorem zodParse_unrecognized (path : List Str) :
    ∀ (schema ss : ZSchema) (fields : List (Str × JValue)) (k : Str) (basePath : List Seg),
      hasExtraKeyAt schema (.obj fields) path k = true →
      deepStrict schema = .ok ss →
      ∃ keys, k ∈ keys ∧
        ZIssue.unrecognizedKeys (basePath ++ path.map Seg.key) keys ∈
          zodParse ss (some (.obj fields)) basePath := by
  induction path with
  | nil =>
    intro schema ss fields k basePath hx hds
    match schema, hx with
    | .obj shape uk, hx =>
      simp only [hasExtraKeyAt, Bool.and_eq_true, decide_eq_true_eq,
        Option.isNone_iff_eq_none] at hx
      obtain ⟨hmem, hnone⟩ := hx
      obtain ⟨shape2, hsh, rfl⟩ := deepStrict_obj shape uk ss hds
      obtain ⟨hkeys, _⟩ := deepStrictShape_keys shape shape2 hsh
      have hnone2 : k ∉ shape2.map (fun e => e.1) := by
        rw [hkeys]
        exact (zshapeLookup_none shape k).mp hnone
      rw [zodParse_obj_eq]
      have hkmem : k ∈ (fields.map (fun e => e.1)).filter
          (fun k2 => decide (k2 ∉ shape2.map (fun e => e.1))) := by
        rw [List.mem_filter]
        exact ⟨hmem, decide_eq_true hnone2⟩
      have hne : (fields.map (fun e => e.1)).filter
          (fun k2 => decide (k2 ∉ shape2.map (fun e => e.1))) ≠ [] :=
        List.ne_nil_of_mem hkmem
      refine ⟨_, hkmem, ?_⟩
      rw [if_pos ⟨rfl, hne⟩]
      refine List.mem_append.mpr (Or.inr ?_)
      rw [List.map_nil, List.append_nil]
      exact List.mem_singleton_self _
  | cons key rest ih =>
    intro schema ss fields k basePath hx hds
    match schema, hx with
    | .obj shape uk, hx =>
      simp only [hasExtraKeyAt] at hx
      cases hsl : zshapeLookup shape key with
      | none => rw [hsl] at hx; simp at hx
      | some cs =>
        cases hjl : jsLookup fields key with
        | none => rw [hsl, hjl] at hx; simp at hx
        | some v2 =>
          rw [hsl, hjl] at hx
          obtain ⟨fields2, rfl⟩ := hasExtraKey_value_obj cs v2 rest k hx
          obtain ⟨shape2, hsh, rfl⟩ := deepStrict_obj shape uk ss hds
          obtain ⟨hkeys, hlook⟩ := deepStrictShape_keys shape shape2 hsh
          obtain ⟨cs2, hsl2, hds2⟩ := hlook key cs hsl
          obtain ⟨keys, hk, hmem⟩ := ih cs cs2 fields2 k (basePath ++ [Seg.key key]) hx hds2
          refine ⟨keys, hk, ?_⟩
          have hassoc : basePath ++ (key :: rest).map Seg.key =
              (basePath ++ [Seg.key key]) ++ rest.map Seg.key := by
            simp
          rw [hassoc, zodParse_obj_eq]
          have hchild : ZIssue.unrecognizedKeys
              ((basePath ++ [Seg.key key]) ++ rest.map Seg.key) keys ∈
              zodParse cs2 (jsLookup fields key) (basePath ++ [Seg.key key]) := by
            rw [hjl]
            exact hmem
          have hshape := zodParseShape_mem shape2 fields basePath key cs2 hsl2 _ hchild
          exact List.mem_append.mpr (Or.inl hshape)

/-- C1 (amended): when the schema strictifies successfully (`deepStrict`
throws on any `ZodArray` it reaches, and leaves unions untouched) and the
parsed document has, at the end of a walk through declared object keys, an
object owning a key the corresponding object schema does not declare,
`validateJson` returns invalid with at least one unrecognized-keys issue;
its `jsonPointer` is the pointer of the object CONTAINING the undeclared
key (not of the key itself), and its message names the key. -/
theorem validateJson_unexpected_key (text : Str) (tree : JNode) (schema ss : ZSchema)
    (path : List Str) (k : Str) (fields : List (Str × JValue))
    (hval : getNodeValue tree = .obj fields)
    (hx : hasExtraKeyAt schema (.obj fields) path k = true)
    (hds : deepStrict schema = .ok ss) :
    (validateJson (.ok (some tree, [])) text schema).valid = false ∧
    ∃ issue ∈ (validateJson (.ok (some tree, [])) text schema).errors,
      issue.jsonPointer = pathToPointer (path.map Seg.key) ∧
      ∃ pre post, issue.message =
        "Validation error: Unrecognized key(s) in object: ".toList ++
          (pre ++ (quoteKey k ++ post)) := by
  obtain ⟨keys, hk, hmem⟩ := zodParse_unrecognized path schema ss fields k [] hx hds
  rw [List.nil_append] at hmem
  simp only [validateJson, hds, hval]
  cases hz : zodParse ss (some (.obj fields)) [] with
  | nil => rw [hz] at hmem; cases hmem
  | cons i0 rest0 =>
    rw [hz] at hmem
    refine ⟨rfl, ?_⟩
    have hflat := mem_flattenIssues_of_mem hmem
    refine ⟨handleIssue text (buildPointerMap tree text [])
      (ZIssue.unrecognizedKeys (path.map Seg.key) keys),
      List.mem_map_of_mem _ hflat, ?_, ?_⟩
    · simp [handleIssue, ZIssue.path]
    · obtain ⟨pre2, post2, hj⟩ := joinSep_quote_mem keys k hk
      refine ⟨pre2, post2, ?_⟩
      have hcat : "Validation error: ".toList ++
          "Unrecognized key(s) in object: ".toList =
          "Validation error: Unrecognized key(s) in object: ".toList := by decide
      simp only [handleIssue, zodMessage]
      rw [hj, ← hcat]
      simp [List.append_assoc]

/-- Witness for the amended C1 theorem: document `{"a": 1, "c": true}`
against `z.object({ a: z.number() })` — key `c` is undeclared at the root. -/
theorem validateJson_unexpected_key_witness :
    (validateJson (.ok (some treeAC, [])) textAC schemaA).valid = false ∧
    ∃ issue ∈ (validateJson (.ok (some treeAC, [])) textAC schemaA).errors,
      issue.jsonPointer = pathToPointer (([] : List Str).map Seg.key) ∧
      ∃ pre post, issue.message =
        "Validation error: Unrecognized key(s) in object: ".toList ++
          (pre ++ (quoteKey ("c".toList) ++ post)) :=
  validateJson_unexpected_key textAC treeAC schemaA
    (.obj [(("a".toList), .prim .znum)] .strict) [] ("c".toList)
    [(("a".toList), .num 1), (("c".toList), .bool true)]
    (by simp [treeAC, getNodeValue, getProps, getNodeValues, objAssign, JNode.value])
    (by decide)
    (by simp [schemaA, deepStrict, deepStrictShape])

/-- C1 counterexample: the schema `z.object({ a: z.array(z.number()) })`
contains an array, so `deepStrict` throws (`ZodArray.element` is a getter
in Zod v3 and its result is not callable) and `validateJson` on the
document `{"c": 1}` — whose key `c` is declared nowhere in the schema —
returns a single Schema-error issue: no Unexpected-category issue exists
and no issue points at `/c`, refuting the claim as stated. -/
theorem validateJson_unexpected_counter :
    validateJson (.ok (some treeC, [])) textC schemaArrA =
      ⟨false, none, [⟨"Schema error: ".toList ++ elementTypeErr, none, [], 0, 0⟩]⟩ ∧
    ∀ i ∈ (validateJson (.ok (some treeC, [])) textC schemaArrA).errors,
      i.jsonPointer ≠ ('/' :: "c".toList) ∧ i.suggestion = none := by
  have hds : deepStrict schemaArrA = .error elementTypeErr := by
    simp [schemaArrA, deepStrict, deepStrictShape]
  have h : validateJson (.ok (some treeC, [])) textC schemaArrA =
      ⟨false, none, [⟨"Schema error: ".toList ++ elementTypeErr, none, [], 0, 0⟩]⟩ := by
    simp only [validateJson, hds]
  rw [h]
  refine ⟨rfl, ?_⟩
  decide
